import Mathlib

/-!
# Verification of the pkcs8 crate's PKCS#8 container model

This development embeds the PKCS#8 "Private-Key Information Syntax" codec,
the encrypted-container codec, the PBES2 decrypt/encrypt orchestration and
the heap-backed document wrappers of the pkcs8 crate (version 0.5.2), and
proves the specified round-trip, strictness, error-classification and
invariant properties about the embedding.

The crate's crate root (src/lib.rs) is an aggregation and re-export surface:
the implementation modules (error, private_key_info, document, traits, pem)
are not part of the sources available here, so the corresponding definitions
below are modelled from the specification document, faithful to its grammar
(RFC 5208 / RFC 8018 DER sequences, definite lengths only), its error
taxonomy and its orchestration algorithm. Bytes are represented as natural
numbers below 256, byte strings as lists of naturals.
-/

/-- Modelled from the spec: the shared error taxonomy of the crate (spec
section 7; the module src/error.rs is not among the sources). One kind per
bullet of the taxonomy. -/
inductive Error where
  /-- DER structural violation: bad tag, wrong length, truncated buffer,
  trailing bytes. -/
  | malformed : Error
  /-- PrivateKeyInfo version field not 0. -/
  | version : Error
  /-- Algorithm, KDF, or cipher identifier outside the fixed supported set. -/
  | unknownAlgorithm : Error
  /-- Password-derived decryption failed; a single undifferentiated kind. -/
  | crypto : Error
  /-- PEM framing or base64 malformed. -/
  | textFormat : Error
  /-- Destination buffer too small in no-allocation encode paths. -/
  | capacity : Error
deriving DecidableEq, Repr
/-- A list of naturals that are genuine bytes (all below 256). -/
def ByteSeq (l : List Nat) : Prop := ∀ x ∈ l, x < 256
instance (l : List Nat) : Decidable (ByteSeq l) :=
  List.decidableBAll _ l
/-- Byte-boundedness of an optional byte string. -/
def OptByteSeq : Option (List Nat) → Prop
  | none => True
  | some l => ByteSeq l
instance : (o : Option (List Nat)) → Decidable (OptByteSeq o)
  | none => isTrue trivial
  | some l => inferInstanceAs (Decidable (ByteSeq l))
/-- Big-endian interpretation of a byte string as a natural number. -/
def bytesToNat (l : List Nat) : Nat :=
  l.foldl (fun a b => a * 256 + b) 0
/-- Minimal big-endian byte representation of a natural number; zero is
represented by the empty list. -/
def natToBytes (n : Nat) : List Nat :=
  if h : n = 0 then [] else natToBytes (n / 256) ++ [n % 256]
termination_by n
decreasing_by exact Nat.div_lt_self (Nat.pos_of_ne_zero h) (by norm_num)
/-- DER definite-length encoding of a content length: short form below 128,
long form (one length-of-length byte, then the minimal big-endian length)
otherwise. -/
def encodeLen (n : Nat) : List Nat :=
  if n < 128 then [n] else (128 + (natToBytes n).length) :: natToBytes n
/-- DER definite-length decoding, enforcing DER minimality: the long form
must have a nonzero leading byte, at least one length byte, and must not
encode a value below 128. Returns the length and the remaining input. -/
def decodeLen (l : List Nat) : Option (Nat × List Nat) :=
  match l with
  | [] => none
  | b :: rest =>
    if b < 128 then some (b, rest)
    else
      let k := b - 128
      if k = 0 then none
      else if rest.length < k then none
      else
        let lb := rest.take k
        if lb.headD 0 = 0 then none
        else
          let n := bytesToNat lb
          if n < 128 ∧ k = 1 then none
          else some (n, rest.drop k)
/-- A DER tag-length-value triple: the tag byte, the definite length of the
content, then the content itself. -/
def tlv (t : Nat) (c : List Nat) : List Nat :=
  t :: (encodeLen c.length ++ c)
/-- Split one tag-length-value triple off the front of the input, returning
the tag, the content, and the remaining bytes. -/
def parseTlv (l : List Nat) : Option (Nat × List Nat × List Nat) :=
  match l with
  | [] => none
  | t :: rest =>
    match decodeLen rest with
    | none => none
    | some (n, rest2) =>
      if rest2.length < n then none
      else some (t, rest2.take n, rest2.drop n)
instance {α : Type} [DecidableEq α] : DecidableEq (Except Error α) := fun x y =>
  match x, y with
  | .ok a, .ok b =>
    if h : a = b then isTrue (by rw [h]) else isFalse (fun hc => h (Except.ok.inj hc))
  | .error a, .error b =>
    if h : a = b then isTrue (by rw [h]) else isFalse (fun hc => h (Except.error.inj hc))
  | .ok _, .error _ => isFalse (fun hc => Except.noConfusion hc)
  | .error _, .ok _ => isFalse (fun hc => Except.noConfusion hc)
/-- Sequencing of fallible decoding steps. -/
def andThen {α β : Type} (x : Except Error α) (f : α → Except Error β) : Except Error β :=
  match x with
  | .error e => .error e
  | .ok a => f a
/-- Read one TLV triple and require the given tag; returns content and rest. -/
def expectTlv (tag : Nat) (b : List Nat) : Except Error (List Nat × List Nat) :=
  match parseTlv b with
  | none => .error .malformed
  | some (t, c, r) => if t = tag then .ok (c, r) else .error .malformed
/-- Read one TLV triple that must fill the whole input and carry the given
tag; returns the content. Trailing bytes are a malformed-encoding error. -/
def expectTlvFull (tag : Nat) (b : List Nat) : Except Error (List Nat) :=
  match parseTlv b with
  | none => .error .malformed
  | some (t, c, r) => if t = tag ∧ r = [] then .ok c else .error .malformed
/-- Modelled from the spec: the external spki crate's AlgorithmIdentifier
(spec sections 2 and 3): an object identifier (its DER content bytes) plus
optional algorithm-specific parameters, kept as the raw DER bytes of the
parameter value. The module defining it is outside the sources; lib.rs
re-exports it verbatim. -/
structure spki.AlgorithmIdentifier where
  oid : List Nat
  parameters : Option (List Nat)
deriving DecidableEq, Repr
/-- Modelled from the spec: the external spki crate's SubjectPublicKeyInfo
(spec sections 2 and 6): an algorithm identifier plus the BIT STRING content
holding the public key. Re-exported verbatim by lib.rs. -/
structure spki.SubjectPublicKeyInfo where
  algorithm : spki.AlgorithmIdentifier
  subjectPublicKey : List Nat
deriving DecidableEq, Repr
/-- The pkcs8 crate's AlgorithmIdentifier, which lib.rs line 89 re-exports
from the spki crate without wrapping or conversion. -/
def pkcs8.AlgorithmIdentifier : Type := spki.AlgorithmIdentifier
/-- The pkcs8 crate's SubjectPublicKeyInfo, which lib.rs line 89 re-exports
from the spki crate without wrapping or conversion. -/
def pkcs8.SubjectPublicKeyInfo : Type := spki.SubjectPublicKeyInfo
open spki
/-- Structural validity of an algorithm identifier value: a nonempty object
identifier, parameters that are absent or a nonempty raw DER value, and all
entries genuine bytes. -/
def spki.AlgorithmIdentifier.Valid (a : AlgorithmIdentifier) : Prop :=
  a.oid ≠ [] ∧ ByteSeq a.oid ∧ a.parameters ≠ some [] ∧ OptByteSeq a.parameters
instance (a : AlgorithmIdentifier) : Decidable a.Valid :=
  inferInstanceAs (Decidable (_ ∧ _ ∧ _ ∧ _))
/-- Modelled from the spec: the PrivateKeyInfo structure (spec section 3,
grammar in section 6; the module src/private_key_info.rs is not among the
sources): algorithm identifier, opaque private-key octet string, optional
attributes kept as the content bytes of the context-tagged SET. The version
field is fixed at zero and therefore not stored. -/
structure PrivateKeyInfo where
  algorithm : AlgorithmIdentifier
  privateKey : List Nat
  attributes : Option (List Nat)
deriving DecidableEq, Repr
/-- Structural validity of a PrivateKeyInfo value. -/
def PrivateKeyInfo.Valid (v : PrivateKeyInfo) : Prop :=
  v.algorithm.Valid ∧ ByteSeq v.privateKey ∧ OptByteSeq v.attributes
instance (v : PrivateKeyInfo) : Decidable v.Valid :=
  inferInstanceAs (Decidable (_ ∧ _ ∧ _))
/-- Minimal DER encoding of an unsigned INTEGER content: a single byte below
128, or the minimal big-endian bytes with a leading zero byte added when the
top bit would otherwise be set. -/
def encodeIntNat (n : Nat) : List Nat :=
  if n < 128 then [n]
  else if (natToBytes n).headD 0 < 128 then natToBytes n
  else 0 :: natToBytes n
/-- Decoding of a DER INTEGER content as an unsigned value, rejecting the
empty content, negative values (leading bit set) and non-minimal encodings
(leading zero byte followed by a byte below 128). -/
def decodeIntNat (l : List Nat) : Option Nat :=
  match l with
  | [] => none
  | [b] => if b < 128 then some b else none
  | b :: c :: rest =>
    if 128 ≤ b then none
    else if b = 0 ∧ c < 128 then none
    else some (bytesToNat (b :: c :: rest))
/-- The raw parameter bytes of an algorithm identifier: nothing when absent,
the raw DER value otherwise. -/
def algParamBytes (a : AlgorithmIdentifier) : List Nat :=
  a.parameters.getD []
/-- Modelled from the spec: DER encoding of an AlgorithmIdentifier (spec
sections 3 and 6): a SEQUENCE of an OBJECT IDENTIFIER and the optional raw
parameters. -/
def encodeAlgorithmIdentifier (a : AlgorithmIdentifier) : List Nat :=
  tlv 48 (tlv 6 a.oid ++ algParamBytes a)
/-- Modelled from the spec: parsing the content of an AlgorithmIdentifier
SEQUENCE: an OBJECT IDENTIFIER with nonempty content, then the optional raw
parameter bytes (everything remaining, absent when nothing remains). -/
def parseAlgIdContent (b : List Nat) : Except Error AlgorithmIdentifier :=
  andThen (expectTlv 6 b) (fun p =>
    if p.1 = [] then .error .malformed
    else .ok ⟨p.1, if p.2 = [] then none else some p.2⟩)
/-- Modelled from the spec: the version check of the PrivateKeyInfo decoder
(spec section 4.1): a missing or non-minimal integer is a malformed
encoding, any value other than zero is the unsupported-version error. -/
def decodeVersion (c : List Nat) : Except Error Unit :=
  match decodeIntNat c with
  | none => .error .malformed
  | some v => if v = 0 then .ok () else .error .version
/-- The attribute field bytes: nothing when absent, a context-tagged
(class 2, number 0, constructed: tag byte 160) SET otherwise. -/
def attrBytes (v : PrivateKeyInfo) : List Nat :=
  match v.attributes with
  | none => []
  | some a => tlv 160 a
/-- Modelled from the spec: DER encoding of a PrivateKeyInfo with an
explicit version number (the codec always writes version zero; the
generalisation expresses the decoder's version check): a SEQUENCE of the
INTEGER version, the AlgorithmIdentifier, the private-key OCTET STRING and
the optional attributes, with all length prefixes recomputed from the
current field values (spec sections 4.1 and 6). -/
def encodePrivateKeyInfoV (n : Nat) (v : PrivateKeyInfo) : List Nat :=
  tlv 48 (tlv 2 (encodeIntNat n) ++
    (encodeAlgorithmIdentifier v.algorithm ++
      (tlv 4 v.privateKey ++ attrBytes v)))
/-- Modelled from the spec: DER encoding of a PrivateKeyInfo, writing the
fixed version zero (spec sections 3, 4.1 and 6). -/
def encodePrivateKeyInfo (v : PrivateKeyInfo) : List Nat :=
  encodePrivateKeyInfoV 0 v
/-- Modelled from the spec: DER decoding of a PrivateKeyInfo (spec section
4.1; the module src/private_key_info.rs is not among the sources): a strict
SEQUENCE of integer version (must be zero), AlgorithmIdentifier, OCTET
STRING, and an optional context-tagged attribute SET; trailing bytes after
the complete sequence, and trailing bytes inside it, are malformed. -/
def decodePrivateKeyInfo (b : List Nat) : Except Error PrivateKeyInfo :=
  andThen (expectTlvFull 48 b) (fun content =>
  andThen (expectTlv 2 content) (fun q1 =>
  andThen (decodeVersion q1.1) (fun _ =>
  andThen (expectTlv 48 q1.2) (fun q2 =>
  andThen (parseAlgIdContent q2.1) (fun alg =>
  andThen (expectTlv 4 q2.2) (fun q3 =>
  if q3.2 = [] then .ok ⟨alg, q3.1, none⟩
  else
    andThen (expectTlvFull 160 q3.2) (fun attrs =>
      .ok ⟨alg, q3.1, some attrs⟩)))))))
/-- A canonical DER encoding of a PrivateKeyInfo: the byte sequence the
codec itself produces for some structurally valid value (DER encodings are
unique, so this is the conformant encoding of that value). -/
def CanonicalPrivateKeyInfoDer (b : List Nat) : Prop :=
  ∃ w : PrivateKeyInfo, w.Valid ∧ encodePrivateKeyInfo w = b
/-- Modelled from the spec: the EncryptedPrivateKeyInfo structure (spec
sections 3 and 6; the module src/private_key_info/encrypted.rs is not among
the sources): the encryption-scheme AlgorithmIdentifier and the opaque
ciphertext octet string. -/
structure EncryptedPrivateKeyInfo where
  encryptionAlgorithm : AlgorithmIdentifier
  encryptedData : List Nat
deriving DecidableEq, Repr
/-- Structural validity of an EncryptedPrivateKeyInfo value. -/
def EncryptedPrivateKeyInfo.Valid (e : EncryptedPrivateKeyInfo) : Prop :=
  e.encryptionAlgorithm.Valid ∧ ByteSeq e.encryptedData
instance (e : EncryptedPrivateKeyInfo) : Decidable e.Valid :=
  inferInstanceAs (Decidable (_ ∧ _))
/-- Modelled from the spec: DER encoding of an EncryptedPrivateKeyInfo
(spec sections 4.2 and 6): a SEQUENCE of the scheme AlgorithmIdentifier and
the ciphertext OCTET STRING. -/
def encodeEncryptedPrivateKeyInfo (e : EncryptedPrivateKeyInfo) : List Nat :=
  tlv 48 (encodeAlgorithmIdentifier e.encryptionAlgorithm ++
    tlv 4 e.encryptedData)
/-- Modelled from the spec: DER decoding of an EncryptedPrivateKeyInfo
(spec section 4.2): structural well-formedness only; the scheme parameters
inside the AlgorithmIdentifier are kept as raw bytes and not interpreted
here, so unsupported schemes still decode. -/
def decodeEncryptedPrivateKeyInfo (b : List Nat) :
    Except Error EncryptedPrivateKeyInfo :=
  andThen (expectTlvFull 48 b) (fun content =>
  andThen (expectTlv 48 content) (fun q1 =>
  andThen (parseAlgIdContent q1.1) (fun alg =>
  andThen (expectTlvFull 4 q1.2) (fun data =>
    .ok ⟨alg, data⟩))))
/-- Modelled from the spec: DER encoding of a SubjectPublicKeyInfo (spec
sections 2 and 6, external spki crate): a SEQUENCE of the
AlgorithmIdentifier and the subject-public-key BIT STRING. -/
def encodeSubjectPublicKeyInfo (s : SubjectPublicKeyInfo) : List Nat :=
  tlv 48 (encodeAlgorithmIdentifier s.algorithm ++ tlv 3 s.subjectPublicKey)
/-- Modelled from the spec: DER decoding of a SubjectPublicKeyInfo, strict
about trailing bytes like the other codecs. -/
def decodeSubjectPublicKeyInfo (b : List Nat) :
    Except Error SubjectPublicKeyInfo :=
  andThen (expectTlvFull 48 b) (fun content =>
  andThen (expectTlv 48 content) (fun q1 =>
  andThen (parseAlgIdContent q1.1) (fun alg =>
  andThen (expectTlvFull 3 q1.2) (fun pk =>
    .ok ⟨alg, pk⟩))))
/-- Modelled from the spec: PKCS#7 padding to the 16-byte AES block size
(spec glossary and section 4.3): append N bytes of value N to fill the
final block, with a whole padding block when the input is already aligned. -/
def pad16 (l : List Nat) : List Nat :=
  l ++ List.replicate (16 - l.length % 16) (16 - l.length % 16)
/-- Modelled from the spec: PKCS#7 unpadding: the last byte names the
padding width, which must be between 1 and 16, not exceed the input, and
consist of identical bytes; anything else is a padding failure. -/
def unpad16 (l : List Nat) : Option (List Nat) :=
  match l.getLast? with
  | none => none
  | some n =>
    if n = 0 ∨ 16 < n ∨ l.length < n then none
    else if l.drop (l.length - n) = List.replicate n n then
      some (l.take (l.length - n))
    else none
/-- Bytewise exclusive or; the shorter operand truncates the result. -/
def xorBytes (a b : List Nat) : List Nat :=
  List.zipWith (fun x y => Nat.xor x y) a b
/-- Modelled from the spec: a pluggable block cipher (spec sections 1 and
4.3: concrete cipher implementations are external collaborators selected by
the encryption-scheme identifier): block encryption and decryption keyed by
a byte string, acting on 16-byte blocks. -/
structure BlockCipher where
  encryptBlock : List Nat → List Nat → List Nat
  decryptBlock : List Nat → List Nat → List Nat
/-- A block cipher implementation is correct when, under every key, block
encryption preserves the 16-byte block length and block decryption inverts
block encryption. -/
def CipherCorrect (c : BlockCipher) : Prop :=
  ∀ key b, b.length = 16 →
    (c.encryptBlock key b).length = 16 ∧
    c.decryptBlock key (c.encryptBlock key b) = b
/-- Modelled from the spec: CBC-mode encryption at the block level (spec
section 4.3 step 3): each plaintext block is combined with the previous
ciphertext block (initially the IV) by exclusive or, then block-encrypted;
the count of blocks to process is given explicitly. -/
def cbcEncBlocksN (enc : List Nat → List Nat) :
    Nat → List Nat → List Nat → List (List Nat)
  | 0, _, _ => []
  | n + 1, iv, data =>
    let c := enc (xorBytes iv (data.take 16))
    c :: cbcEncBlocksN enc n c (data.drop 16)
/-- Modelled from the spec: CBC-mode decryption at the block level: each
ciphertext block is block-decrypted then combined with the previous
ciphertext block (initially the IV) by exclusive or. -/
def cbcDecBlocksN (dec : List Nat → List Nat) :
    Nat → List Nat → List Nat → List (List Nat)
  | 0, _, _ => []
  | n + 1, iv, data =>
    xorBytes iv (dec (data.take 16)) :: cbcDecBlocksN dec n (data.take 16) (data.drop 16)
/-- Modelled from the spec: CBC encryption with PKCS#7 padding (spec
section 4.3): pad the plaintext, then chain the cipher over the 16-byte
blocks starting from the IV. -/
def cbcEncrypt (c : BlockCipher) (key iv pt : List Nat) : List Nat :=
  let padded := pad16 pt
  (cbcEncBlocksN (c.encryptBlock key) (padded.length / 16) iv padded).flatten
/-- Modelled from the spec: CBC decryption with PKCS#7 unpadding (spec
section 4.3 step 3): a ciphertext whose length is not a multiple of the
block size, or whose padding is invalid, fails. -/
def cbcDecrypt (c : BlockCipher) (key iv ct : List Nat) : Option (List Nat) :=
  if ct.length % 16 = 0 then
    unpad16 ((cbcDecBlocksN (c.decryptBlock key) (ct.length / 16) iv ct).flatten)
  else none
/-- Big-endian 32-bit block index used by PBKDF2. -/
def int32be (i : Nat) : List Nat :=
  [i / 16777216 % 256, i / 65536 % 256, i / 256 % 256, i % 256]
/-- Modelled from the spec: the inner iteration of PBKDF2 (spec glossary,
RFC 8018): repeatedly apply the pseudorandom function and accumulate the
exclusive or of all iterates. -/
def pbkdf2Inner (prf : List Nat → List Nat → List Nat) (pw : List Nat) :
    Nat → List Nat → List Nat → List Nat
  | 0, acc, _ => acc
  | n + 1, acc, u =>
    let u2 := prf pw u
    pbkdf2Inner prf pw n (xorBytes acc u2) u2
/-- Modelled from the spec: one PBKDF2 output block for block index i. -/
def pbkdf2F (prf : List Nat → List Nat → List Nat)
    (pw salt : List Nat) (iters i : Nat) : List Nat :=
  let u1 := prf pw (salt ++ int32be i)
  pbkdf2Inner prf pw (iters - 1) u1 u1
/-- Modelled from the spec: PBKDF2 key derivation (spec section 4.3 step 2,
glossary; the concrete KDF implementation is an external collaborator):
derive ceil(dkLen / hLen) blocks with the given pseudorandom function of
output width hLen and truncate to the requested key length. Derivation is a
pure function of (password, salt, iteration count, PRF, output length). -/
def pbkdf2 (prf : List Nat → List Nat → List Nat) (hLen : Nat)
    (pw salt : List Nat) (iters dkLen : Nat) : List Nat :=
  let nBlocks := (dkLen + hLen - 1) / hLen
  (((List.range nBlocks).map (fun j => pbkdf2F prf pw salt iters (j + 1))).flatten).take dkLen
/-- DER content bytes of the object identifier 1.2.840.113549.1.5.13
(PBES2). -/
def pbes2Oid : List Nat := [42, 134, 72, 134, 247, 13, 1, 5, 13]
/-- DER content bytes of the object identifier 1.2.840.113549.1.5.12
(PBKDF2). -/
def pbkdf2Oid : List Nat := [42, 134, 72, 134, 247, 13, 1, 5, 12]
/-- DER content bytes of the object identifier 1.2.840.113549.2.9
(HMAC with SHA-256). -/
def hmacSha256Oid : List Nat := [42, 134, 72, 134, 247, 13, 2, 9]
/-- DER content bytes of the object identifier 2.16.840.1.101.3.4.1.2
(AES-128-CBC). -/
def aes128CbcOid : List Nat := [96, 134, 72, 1, 101, 3, 4, 1, 2]
/-- DER content bytes of the object identifier 2.16.840.1.101.3.4.1.42
(AES-256-CBC). -/
def aes256CbcOid : List Nat := [96, 134, 72, 1, 101, 3, 4, 1, 42]
/-- Modelled from the spec: the two supported symmetric ciphers (spec
section 4.3 step 1). -/
inductive SymCipher where
  | aes128Cbc : SymCipher
  | aes256Cbc : SymCipher
deriving DecidableEq, Repr
/-- The key length in bytes required by each supported cipher. -/
def SymCipher.keyLen : SymCipher → Nat
  | .aes128Cbc => 16
  | .aes256Cbc => 32
/-- The object identifier naming each supported cipher. -/
def SymCipher.cipherOid : SymCipher → List Nat
  | .aes128Cbc => aes128CbcOid
  | .aes256Cbc => aes256CbcOid
/-- Modelled from the spec: the PBES2 scheme parameters carried inside the
encryption AlgorithmIdentifier (spec section 4.2): PBKDF2 salt and
iteration count (with HMAC-SHA256 as the pseudorandom function), the chosen
cipher, and its initialisation vector. -/
structure Pbes2Params where
  salt : List Nat
  iterationCount : Nat
  cipher : SymCipher
  iv : List Nat
deriving DecidableEq, Repr
/-- DER encoding of a PBES2 parameter structure with explicit identifier
bytes for the KDF, the pseudorandom function and the cipher; the supported
encoding instantiates them with the supported identifiers. -/
def encodePbes2ParamsRaw (kdfOid prfOid cOid salt : List Nat)
    (iters : Nat) (iv : List Nat) : List Nat :=
  tlv 48 (
    tlv 48 (tlv 6 kdfOid ++
      tlv 48 (tlv 4 salt ++
        (tlv 2 (encodeIntNat iters) ++
          tlv 48 (tlv 6 prfOid ++ [5, 0])))) ++
    tlv 48 (tlv 6 cOid ++ tlv 4 iv))
/-- Modelled from the spec: DER encoding of the PBES2 parameters (spec
sections 4.2 and 4.3, RFC 8018): a SEQUENCE of the PBKDF2
AlgorithmIdentifier (salt, iteration count, HMAC-SHA256 PRF with NULL
parameters) and the cipher AlgorithmIdentifier (IV as OCTET STRING). -/
def encodePbes2Params (p : Pbes2Params) : List Nat :=
  encodePbes2ParamsRaw pbkdf2Oid hmacSha256Oid p.cipher.cipherOid
    p.salt p.iterationCount p.iv
/-- The encryption AlgorithmIdentifier written by the encryption
orchestrator: the PBES2 object identifier with the encoded parameters. -/
def pbes2AlgorithmIdentifier (p : Pbes2Params) : AlgorithmIdentifier :=
  ⟨pbes2Oid, some (encodePbes2Params p)⟩
/-- Modelled from the spec: lazy parsing of the PBES2 scheme parameters by
the decrypt/encrypt orchestrator (spec section 4.3 step 1): reject with the
unknown-algorithm error any scheme, KDF, pseudorandom-function or cipher
identifier outside the supported set; structural violations of the
parameter encoding are malformed-encoding errors. -/
def parsePbes2 (alg : AlgorithmIdentifier) : Except Error Pbes2Params :=
  if alg.oid = pbes2Oid then
    match alg.parameters with
    | none => .error .malformed
    | some bytes =>
      andThen (expectTlvFull 48 bytes) (fun outer =>
      andThen (expectTlv 48 outer) (fun qk =>
      andThen (expectTlv 6 qk.1) (fun qko =>
      if qko.1 = pbkdf2Oid then
        andThen (expectTlvFull 48 qko.2) (fun kdfp =>
        andThen (expectTlv 4 kdfp) (fun qs =>
        andThen (expectTlv 2 qs.2) (fun qi =>
        match decodeIntNat qi.1 with
        | none => .error .malformed
        | some iters =>
          andThen (expectTlvFull 48 qi.2) (fun prfc =>
          andThen (expectTlv 6 prfc) (fun qp =>
          if qp.1 = hmacSha256Oid then
            if qp.2 = [5, 0] then
              andThen (expectTlvFull 48 qk.2) (fun schemec =>
              andThen (expectTlv 6 schemec) (fun qc =>
              if qc.1 = aes128CbcOid then
                andThen (expectTlvFull 4 qc.2) (fun iv =>
                  .ok ⟨qs.1, iters, .aes128Cbc, iv⟩)
              else if qc.1 = aes256CbcOid then
                andThen (expectTlvFull 4 qc.2) (fun iv =>
                  .ok ⟨qs.1, iters, .aes256Cbc, iv⟩)
              else .error .unknownAlgorithm))
            else .error .malformed
          else .error .unknownAlgorithm)))))
      else .error .unknownAlgorithm)))
  else .error .unknownAlgorithm
/-- Modelled from the spec: decryption of an encrypted private-key
container (spec section 4.3; the decrypt function of the pkcs8 crate's
EncryptedPrivateKeyInfo, whose module is not among the sources). The block
cipher implementations are external collaborators supplied per supported
cipher, and the pseudorandom function likewise. Steps: lazily parse the
PBES2 parameters, derive the key with PBKDF2, CBC-decrypt with PKCS#7
unpadding, then decode the plaintext as a PrivateKeyInfo; every
cryptographic failure, padding failure included, and every decode failure
of the plaintext surfaces as the single crypto error kind. -/
def EncryptedPrivateKeyInfo.decrypt (impl : SymCipher → BlockCipher)
    (prf : List Nat → List Nat → List Nat)
    (e : EncryptedPrivateKeyInfo) (password : List Nat) :
    Except Error PrivateKeyInfo :=
  match parsePbes2 e.encryptionAlgorithm with
  | .error err => .error err
  | .ok p =>
    let key := pbkdf2 prf 32 password p.salt p.iterationCount p.cipher.keyLen
    match cbcDecrypt (impl p.cipher) key p.iv e.encryptedData with
    | none => .error .crypto
    | some pt =>
      match decodePrivateKeyInfo pt with
      | .error _ => .error .crypto
      | .ok v => .ok v
/-- Modelled from the spec: encryption of a private key under a password
and PBES2 scheme parameters (spec section 4.3, final paragraph): encode the
plaintext PrivateKeyInfo, derive the key with PBKDF2 from the
caller-supplied parameters, CBC-encrypt with PKCS#7 padding, and wrap the
ciphertext with the PBES2 algorithm identifier. -/
def encryptPrivateKeyInfo (impl : SymCipher → BlockCipher)
    (prf : List Nat → List Nat → List Nat)
    (v : PrivateKeyInfo) (p : Pbes2Params) (password : List Nat) :
    EncryptedPrivateKeyInfo :=
  let pt := encodePrivateKeyInfo v
  let key := pbkdf2 prf 32 password p.salt p.iterationCount p.cipher.keyLen
  ⟨pbes2AlgorithmIdentifier p, cbcEncrypt (impl p.cipher) key p.iv pt⟩
/-- Modelled from the spec: the heap-backed validated document holding one
DER encoding of a PrivateKeyInfo (spec sections 3 and 4.4; the module
src/document/private_key.rs is not among the sources). The buffer is the
whole state; it is only ever replaced, never mutated in place. -/
structure PrivateKeyDocument where
  bytes : List Nat
deriving DecidableEq, Repr
/-- Modelled from the spec: the heap-backed validated document holding one
DER encoding of a SubjectPublicKeyInfo (spec section 4.4). -/
structure PublicKeyDocument where
  bytes : List Nat
deriving DecidableEq, Repr
/-- Modelled from the spec: the heap-backed validated document holding one
DER encoding of an EncryptedPrivateKeyInfo (spec section 4.4). -/
structure EncryptedPrivateKeyDocument where
  bytes : List Nat
deriving DecidableEq, Repr
/-- Modelled from the spec: fallible construction of a private-key document
from raw bytes (spec section 4.4): validate by decoding once, discard the
transient view, store the buffer. -/
def PrivateKeyDocument.tryFrom (b : List Nat) :
    Except Error PrivateKeyDocument :=
  match decodePrivateKeyInfo b with
  | .ok _ => .ok ⟨b⟩
  | .error e => .error e
/-- Modelled from the spec: construction of a private-key document from a
structured value (spec section 4.4): encode, then validate by re-decoding
exactly as the raw-byte constructor does. -/
def PrivateKeyDocument.fromPrivateKeyInfo (v : PrivateKeyInfo) :
    Except Error PrivateKeyDocument :=
  PrivateKeyDocument.tryFrom (encodePrivateKeyInfo v)
/-- Read-only view of the stored buffer (spec section 4.4). -/
def PrivateKeyDocument.asBytes (d : PrivateKeyDocument) : List Nat :=
  d.bytes
/-- Modelled from the spec: fallible construction of a public-key document
from raw bytes, validating by decoding. -/
def PublicKeyDocument.tryFrom (b : List Nat) :
    Except Error PublicKeyDocument :=
  match decodeSubjectPublicKeyInfo b with
  | .ok _ => .ok ⟨b⟩
  | .error e => .error e
/-- Modelled from the spec: construction of a public-key document from a
structured value: encode then validate by re-decoding. -/
def PublicKeyDocument.fromSubjectPublicKeyInfo (s : SubjectPublicKeyInfo) :
    Except Error PublicKeyDocument :=
  PublicKeyDocument.tryFrom (encodeSubjectPublicKeyInfo s)
/-- Read-only view of the stored buffer. -/
def PublicKeyDocument.asBytes (d : PublicKeyDocument) : List Nat :=
  d.bytes
/-- Modelled from the spec: fallible construction of an encrypted
private-key document from raw bytes, validating by decoding. -/
def EncryptedPrivateKeyDocument.tryFrom (b : List Nat) :
    Except Error EncryptedPrivateKeyDocument :=
  match decodeEncryptedPrivateKeyInfo b with
  | .ok _ => .ok ⟨b⟩
  | .error e => .error e
/-- Modelled from the spec: construction of an encrypted private-key
document from a structured value: encode then validate by re-decoding. -/
def EncryptedPrivateKeyDocument.fromEncryptedPrivateKeyInfo
    (e : EncryptedPrivateKeyInfo) : Except Error EncryptedPrivateKeyDocument :=
  EncryptedPrivateKeyDocument.tryFrom (encodeEncryptedPrivateKeyInfo e)
/-- Read-only view of the stored buffer. -/
def EncryptedPrivateKeyDocument.asBytes (d : EncryptedPrivateKeyDocument) :
    List Nat := d.bytes
/-- A small structurally valid PrivateKeyInfo used to witness the claims. -/
def vEx : PrivateKeyInfo := ⟨⟨[42, 134, 72], some [5, 0]⟩, [1, 2, 3], none⟩
/-- A small structurally valid SubjectPublicKeyInfo used as a witness. -/
def sEx : SubjectPublicKeyInfo := ⟨⟨[42, 134, 72], none⟩, [0, 3, 5]⟩
/-- A small structurally valid EncryptedPrivateKeyInfo (the scheme named by
its algorithm identifier is not interpreted when decoding). -/
def eEx : EncryptedPrivateKeyInfo := ⟨⟨[43], none⟩, [9, 9]⟩
/-- Small PBES2 parameters used to witness the claims. -/
def pEx : Pbes2Params := ⟨[9, 8], 1, .aes128Cbc, List.replicate 16 0⟩
/-- A small password used to witness the claims. -/
def pwEx : List Nat := [112, 119]
/-- The identity block cipher: a trivially correct external cipher
implementation used to witness the orchestrator theorems. -/
def idCipher : BlockCipher := ⟨fun _ b => b, fun _ b => b⟩
/-- A cipher implementation table assigning the identity cipher to both
supported ciphers. -/
def idImpl : SymCipher → BlockCipher := fun _ => idCipher
/-- A constant pseudorandom function of output width 32 used to witness the
orchestrator theorems. -/
def constPrf : List Nat → List Nat → List Nat := fun _ _ => List.replicate 32 7

theorem bytesToNat_nil : bytesToNat [] = 0 := rfl
theorem bytesToNat_concat (xs : List Nat) (b : Nat) :
    bytesToNat (xs ++ [b]) = bytesToNat xs * 256 + b := by
  simp [bytesToNat, List.foldl_append]
theorem bytesToNat_zero_cons (l : List Nat) :
    bytesToNat (0 :: l) = bytesToNat l := by
  simp [bytesToNat]
theorem bytesToNat_natToBytes (n : Nat) : bytesToNat (natToBytes n) = n := by
  induction n using Nat.strong_induction_on with
  | _ n ih =>
    rw [natToBytes]
    by_cases h : n = 0
    · simp [h, bytesToNat_nil]
    · simp only [h, dite_false]
      rw [bytesToNat_concat, ih (n / 256) (Nat.div_lt_self (Nat.pos_of_ne_zero h) (by norm_num))]
      have := Nat.div_add_mod n 256
      omega
theorem natToBytes_cons (n : Nat) (h : n ≠ 0) :
    ∃ a t, natToBytes n = a :: t ∧ 0 < a := by
  induction n using Nat.strong_induction_on with
  | _ n ih =>
    rw [natToBytes]
    simp only [h, dite_false]
    by_cases hq : n / 256 = 0
    · have hlt : n < 256 := (Nat.div_eq_zero_iff (by norm_num)).mp hq
      rw [hq]
      refine ⟨n % 256, [], ?_, ?_⟩
      · rw [natToBytes]; simp
      · rw [Nat.mod_eq_of_lt hlt]; exact Nat.pos_of_ne_zero h
    · obtain ⟨a, t, he, ha⟩ := ih (n / 256)
        (Nat.div_lt_self (Nat.pos_of_ne_zero h) (by norm_num)) hq
      exact ⟨a, t ++ [n % 256], by rw [he]; simp, ha⟩
theorem natToBytes_ne_nil (n : Nat) (h : n ≠ 0) : natToBytes n ≠ [] := by
  obtain ⟨a, t, he, _⟩ := natToBytes_cons n h
  simp [he]
theorem decodeLen_encodeLen (n : Nat) (r : List Nat) :
    decodeLen (encodeLen n ++ r) = some (n, r) := by
  unfold encodeLen
  by_cases h : n < 128
  · simp [h, decodeLen]
  · have hn0 : n ≠ 0 := by omega
    obtain ⟨a, t, he, ha⟩ := natToBytes_cons n hn0
    have hlen1 : 1 ≤ (natToBytes n).length := by
      rw [he]; simp
    simp only [h, ite_false, List.cons_append, decodeLen]
    have hb : ¬ (128 + (natToBytes n).length < 128) := by omega
    have hk : ¬ (128 + (natToBytes n).length - 128 = 0) := by omega
    have hke : 128 + (natToBytes n).length - 128 = (natToBytes n).length := by omega
    simp only [hb, ite_false, hke, hk]
    have hrl : ¬ ((natToBytes n ++ r).length < (natToBytes n).length) := by
      simp
    simp only [hrl, ite_false]
    rw [List.take_left, List.drop_left]
    have hh : (natToBytes n).headD 0 = a := by rw [he]; rfl
    have hha : ¬ ((natToBytes n).headD 0 = 0) := by rw [hh]; omega
    simp only [hha, ite_false, bytesToNat_natToBytes]
    have : ¬ (n < 128 ∧ (natToBytes n).length = 1) := by
      intro hc; exact h hc.1
    simp [this, natToBytes_ne_nil n hn0]
@[simp] theorem tlv_ne_nil (t : Nat) (c : List Nat) : tlv t c ≠ [] := by
  simp [tlv]
theorem parseTlv_tlv_append (t : Nat) (c r : List Nat) :
    parseTlv (tlv t c ++ r) = some (t, c, r) := by
  unfold tlv
  rw [List.cons_append, List.append_assoc]
  have h : ¬ ((c ++ r).length < c.length) := by simp
  simp only [parseTlv, decodeLen_encodeLen, h, ite_false, List.take_left, List.drop_left]
theorem parseTlv_tlv (t : Nat) (c : List Nat) :
    parseTlv (tlv t c) = some (t, c, []) := by
  have := parseTlv_tlv_append t c []
  simpa using this
@[simp] theorem andThen_ok {α β : Type} (a : α) (f : α → Except Error β) :
    andThen (.ok a) f = f a := rfl
@[simp] theorem andThen_error {α β : Type} (e : Error) (f : α → Except Error β) :
    andThen (.error e) f = .error e := rfl
@[simp] theorem expectTlv_tlv_append (t : Nat) (c r : List Nat) :
    expectTlv t (tlv t c ++ r) = .ok (c, r) := by
  simp [expectTlv, parseTlv_tlv_append]
@[simp] theorem expectTlv_tlv (t : Nat) (c : List Nat) :
    expectTlv t (tlv t c) = .ok (c, []) := by
  simp [expectTlv, parseTlv_tlv]
@[simp] theorem expectTlvFull_tlv (t : Nat) (c : List Nat) :
    expectTlvFull t (tlv t c) = .ok c := by
  simp [expectTlvFull, parseTlv_tlv]
theorem expectTlvFull_tlv_append (t : Nat) (c r : List Nat) :
    expectTlvFull t (tlv t c ++ r) =
      if r = [] then .ok c else .error .malformed := by
  by_cases h : r = []
  · simp [h]
  · simp [expectTlvFull, parseTlv_tlv_append, h]
theorem decodeIntNat_encodeIntNat (n : Nat) :
    decodeIntNat (encodeIntNat n) = some n := by
  unfold encodeIntNat
  by_cases h : n < 128
  · simp [h, decodeIntNat]
  · have hn0 : n ≠ 0 := by omega
    obtain ⟨a, t, he, ha⟩ := natToBytes_cons n hn0
    have hbn : bytesToNat (natToBytes n) = n := bytesToNat_natToBytes n
    rw [he] at hbn
    simp only [h, ite_false, he, List.headD_cons]
    by_cases hc : a < 128
    · simp only [hc, ite_true]
      match t, hbn with
      | [], hbn =>
        have han : a = n := by simpa [bytesToNat] using hbn
        have hcn : n < 128 := han ▸ hc
        simp [decodeIntNat, hcn, han]
      | c :: rest, hbn =>
        have hb1 : ¬ (128 ≤ a) := by omega
        have hb2 : ¬ (a = 0 ∧ c < 128) := by intro hx; omega
        simp [decodeIntNat, hb1, hb2, hbn]
    · simp only [hc, ite_false]
      have hb2 : ¬ ((0 : Nat) = 0 ∧ a < 128) := by intro hx; omega
      simp [decodeIntNat, hb2, bytesToNat_zero_cons, hbn]
      omega
theorem parseAlgIdContent_encode (a : AlgorithmIdentifier)
    (h1 : a.oid ≠ []) (h2 : a.parameters ≠ some []) :
    parseAlgIdContent (tlv 6 a.oid ++ algParamBytes a) = .ok a := by
  obtain ⟨oid, ps⟩ := a
  cases ps with
  | none =>
    simp only [algParamBytes, Option.getD_none, List.append_nil]
    simp [parseAlgIdContent, h1]
  | some p =>
    have hp : p ≠ [] := by
      intro hc; exact h2 (by rw [hc])
    simp only [algParamBytes, Option.getD_some]
    simp [parseAlgIdContent, h1, hp]
theorem decodeVersion_encodeIntNat (n : Nat) :
    decodeVersion (encodeIntNat n) =
      if n = 0 then .ok () else .error .version := by
  simp [decodeVersion, decodeIntNat_encodeIntNat]
theorem decodePrivateKeyInfo_encodeV (n : Nat) (v : PrivateKeyInfo)
    (hv : v.Valid) :
    decodePrivateKeyInfo (encodePrivateKeyInfoV n v) =
      if n = 0 then .ok v else .error .version := by
  obtain ⟨⟨h1, _, h2, _⟩, _, _⟩ := hv
  unfold encodePrivateKeyInfoV decodePrivateKeyInfo
  rw [expectTlvFull_tlv, andThen_ok, expectTlv_tlv_append, andThen_ok,
    decodeVersion_encodeIntNat]
  by_cases hn : n = 0
  · simp only [hn, ite_true, andThen_ok]
    unfold encodeAlgorithmIdentifier
    rw [expectTlv_tlv_append, andThen_ok, parseAlgIdContent_encode v.algorithm h1 h2,
      andThen_ok]
    obtain ⟨alg, key, attrs⟩ := v
    cases attrs with
    | none =>
      simp [attrBytes]
    | some a =>
      simp only [attrBytes]
      rw [expectTlv_tlv_append, andThen_ok]
      simp
  · simp [hn]
theorem decodePrivateKeyInfo_encode (v : PrivateKeyInfo) (hv : v.Valid) :
    decodePrivateKeyInfo (encodePrivateKeyInfo v) = .ok v := by
  unfold encodePrivateKeyInfo
  rw [decodePrivateKeyInfo_encodeV 0 v hv]
  simp
theorem decodeEncryptedPrivateKeyInfo_encode (e : EncryptedPrivateKeyInfo)
    (h1 : e.encryptionAlgorithm.oid ≠ [])
    (h2 : e.encryptionAlgorithm.parameters ≠ some []) :
    decodeEncryptedPrivateKeyInfo (encodeEncryptedPrivateKeyInfo e) = .ok e := by
  unfold encodeEncryptedPrivateKeyInfo decodeEncryptedPrivateKeyInfo
    encodeAlgorithmIdentifier
  rw [expectTlvFull_tlv, andThen_ok, expectTlv_tlv_append, andThen_ok,
    parseAlgIdContent_encode e.encryptionAlgorithm h1 h2, andThen_ok,
    expectTlvFull_tlv, andThen_ok]
theorem decodeSubjectPublicKeyInfo_encode (s : SubjectPublicKeyInfo)
    (h1 : s.algorithm.oid ≠ []) (h2 : s.algorithm.parameters ≠ some []) :
    decodeSubjectPublicKeyInfo (encodeSubjectPublicKeyInfo s) = .ok s := by
  unfold encodeSubjectPublicKeyInfo decodeSubjectPublicKeyInfo
    encodeAlgorithmIdentifier
  rw [expectTlvFull_tlv, andThen_ok, expectTlv_tlv_append, andThen_ok,
    parseAlgIdContent_encode s.algorithm h1 h2, andThen_ok,
    expectTlvFull_tlv, andThen_ok]
theorem pad16_length (l : List Nat) :
    (pad16 l).length = l.length + (16 - l.length % 16) := by
  simp [pad16]
theorem pad16_length_mod (l : List Nat) : (pad16 l).length % 16 = 0 := by
  rw [pad16_length]
  have h1 : l.length % 16 < 16 := Nat.mod_lt _ (by norm_num)
  omega
theorem unpad16_pad16 (l : List Nat) : unpad16 (pad16 l) = some l := by
  have h1 : l.length % 16 < 16 := Nat.mod_lt _ (by norm_num)
  set n := 16 - l.length % 16 with hn
  have hn1 : 1 ≤ n := by omega
  have hn16 : n ≤ 16 := by omega
  have hrep : List.replicate n n = List.replicate (n - 1) n ++ [n] := by
    have : n = (n - 1) + 1 := by omega
    rw [this]
    simp [List.replicate_succ']
  have hlast : (pad16 l).getLast? = some n := by
    unfold pad16
    rw [← hn, hrep, ← List.append_assoc, List.getLast?_concat]
  have hlen : (pad16 l).length = l.length + n := by
    rw [pad16_length]
  unfold unpad16
  rw [hlast]
  have hc1 : ¬ (n = 0 ∨ 16 < n ∨ (pad16 l).length < n) := by
    rw [hlen]; omega
  simp only [hc1, ite_false]
  have hsub : (pad16 l).length - n = l.length := by omega
  rw [hsub]
  have hdrop : (pad16 l).drop l.length = List.replicate n n := by
    unfold pad16
    rw [← hn, List.drop_left]
  have htake : (pad16 l).take l.length = l := by
    unfold pad16
    rw [← hn, List.take_left]
  rw [hdrop, htake]
  simp
theorem length_xorBytes (a b : List Nat) :
    (xorBytes a b).length = min a.length b.length := by
  simp [xorBytes]
theorem xorBytes_xorBytes (a b : List Nat) (h : a.length = b.length) :
    xorBytes a (xorBytes a b) = b := by
  induction a generalizing b with
  | nil =>
    cases b with
    | nil => rfl
    | cons y ys => simp at h
  | cons x xs ih =>
    cases b with
    | nil => simp at h
    | cons y ys =>
      simp only [xorBytes, List.zipWith_cons_cons]
      have hx : Nat.xor x (Nat.xor x y) = y := by
        show x ^^^ (x ^^^ y) = y
        rw [← Nat.xor_assoc, Nat.xor_self, Nat.zero_xor]
      rw [hx]
      have ih2 := ih ys (by simpa using h)
      simpa [xorBytes] using ih2
theorem cbcEncBlocksN_flatten_length (enc : List Nat → List Nat)
    (hl : ∀ b, b.length = 16 → (enc b).length = 16) :
    ∀ n iv data, iv.length = 16 → data.length = 16 * n →
      ((cbcEncBlocksN enc n iv data).flatten).length = 16 * n := by
  intro n
  induction n with
  | zero => intro iv data _ _; simp [cbcEncBlocksN]
  | succ m ih =>
    intro iv data hiv hd
    have htake : (data.take 16).length = 16 := by
      rw [List.length_take]; omega
    have hx : (xorBytes iv (data.take 16)).length = 16 := by
      rw [length_xorBytes, hiv, htake]; simp
    have hc : (enc (xorBytes iv (data.take 16))).length = 16 := hl _ hx
    have hdrop : (data.drop 16).length = 16 * m := by
      rw [List.length_drop]; omega
    simp only [cbcEncBlocksN, List.flatten_cons, List.length_append, hc,
      ih _ _ hc hdrop]
    ring
theorem cbcDec_cbcEnc_flatten (enc dec : List Nat → List Nat)
    (hl : ∀ b, b.length = 16 → (enc b).length = 16)
    (hinv : ∀ b, b.length = 16 → dec (enc b) = b) :
    ∀ n iv data, iv.length = 16 → data.length = 16 * n →
      (cbcDecBlocksN dec n iv ((cbcEncBlocksN enc n iv data).flatten)).flatten
        = data := by
  intro n
  induction n with
  | zero =>
    intro iv data _ hd
    have : data = [] := List.eq_nil_of_length_eq_zero (by omega)
    simp [cbcEncBlocksN, cbcDecBlocksN, this]
  | succ m ih =>
    intro iv data hiv hd
    have htake : (data.take 16).length = 16 := by
      rw [List.length_take]; omega
    have hx : (xorBytes iv (data.take 16)).length = 16 := by
      rw [length_xorBytes, hiv, htake]; simp
    have hc : (enc (xorBytes iv (data.take 16))).length = 16 := hl _ hx
    have hdrop : (data.drop 16).length = 16 * m := by
      rw [List.length_drop]; omega
    simp only [cbcEncBlocksN, List.flatten_cons]
    set c := enc (xorBytes iv (data.take 16)) with hcdef
    set rest := (cbcEncBlocksN enc m c (data.drop 16)).flatten with hrest
    have htc : (c ++ rest).take 16 = c := by
      rw [← hc, List.take_left]
    have hdc : (c ++ rest).drop 16 = rest := by
      rw [← hc, List.drop_left]
    simp only [cbcDecBlocksN, htc, hdc, List.flatten_cons]
    rw [hcdef, hinv _ hx, xorBytes_xorBytes iv _ (by rw [hiv, htake]),
      ← hcdef, ih c (data.drop 16) hc hdrop, List.take_append_drop]
theorem cbcDecrypt_cbcEncrypt (c : BlockCipher) (key iv pt : List Nat)
    (hc : CipherCorrect c) (hiv : iv.length = 16) :
    cbcDecrypt c key iv (cbcEncrypt c key iv pt) = some pt := by
  have hl : ∀ b, b.length = 16 → (c.encryptBlock key b).length = 16 :=
    fun b hb => (hc key b hb).1
  have hinv : ∀ b, b.length = 16 →
      c.decryptBlock key (c.encryptBlock key b) = b :=
    fun b hb => (hc key b hb).2
  have hm : (pad16 pt).length % 16 = 0 := pad16_length_mod pt
  have hq := Nat.div_add_mod (pad16 pt).length 16
  set n := (pad16 pt).length / 16 with hn
  have hlen : (pad16 pt).length = 16 * n := by omega
  have hct : ((cbcEncBlocksN (c.encryptBlock key) n iv (pad16 pt)).flatten).length
      = 16 * n := cbcEncBlocksN_flatten_length _ hl n iv (pad16 pt) hiv hlen
  simp only [cbcEncrypt, cbcDecrypt]
  rw [← hn, hct]
  have h1 : 16 * n % 16 = 0 := Nat.mul_mod_right 16 n
  have h2 : 16 * n / 16 = n := by omega
  simp only [h1, ite_true, h2]
  rw [cbcDec_cbcEnc_flatten _ _ hl hinv n iv (pad16 pt) hiv hlen,
    unpad16_pad16]
theorem parsePbes2_pbes2AlgorithmIdentifier (p : Pbes2Params) :
    parsePbes2 (pbes2AlgorithmIdentifier p) = .ok p := by
  obtain ⟨s, i, c, iv⟩ := p
  cases c with
  | aes128Cbc =>
    simp [parsePbes2, pbes2AlgorithmIdentifier, encodePbes2Params,
      encodePbes2ParamsRaw, SymCipher.cipherOid, decodeIntNat_encodeIntNat]
  | aes256Cbc =>
    have hne : aes256CbcOid ≠ aes128CbcOid := by decide
    simp [parsePbes2, pbes2AlgorithmIdentifier, encodePbes2Params,
      encodePbes2ParamsRaw, SymCipher.cipherOid, decodeIntNat_encodeIntNat, hne]
theorem decrypt_encryptPrivateKeyInfo (impl : SymCipher → BlockCipher)
    (prf : List Nat → List Nat → List Nat)
    (v : PrivateKeyInfo) (p : Pbes2Params) (password : List Nat)
    (hv : v.Valid) (hc : CipherCorrect (impl p.cipher))
    (hiv : p.iv.length = 16) :
    EncryptedPrivateKeyInfo.decrypt impl prf
      (encryptPrivateKeyInfo impl prf v p password) password = .ok v := by
  unfold encryptPrivateKeyInfo EncryptedPrivateKeyInfo.decrypt
  simp only [parsePbes2_pbes2AlgorithmIdentifier]
  rw [cbcDecrypt_cbcEncrypt (impl p.cipher) _ p.iv (encodePrivateKeyInfo v) hc hiv]
  simp only [decodePrivateKeyInfo_encode v hv]
theorem parsePbes2_not_pbes2 (alg : AlgorithmIdentifier)
    (h : alg.oid ≠ pbes2Oid) :
    parsePbes2 alg = .error .unknownAlgorithm := by
  simp [parsePbes2, h]
theorem parsePbes2_raw_unknown (kdfOid prfOid cOid salt iv : List Nat)
    (iters : Nat)
    (hk : kdfOid ≠ pbkdf2Oid ∨ prfOid ≠ hmacSha256Oid ∨
      (cOid ≠ aes128CbcOid ∧ cOid ≠ aes256CbcOid)) :
    parsePbes2 ⟨pbes2Oid,
        some (encodePbes2ParamsRaw kdfOid prfOid cOid salt iters iv)⟩ =
      .error .unknownAlgorithm := by
  by_cases h1 : kdfOid = pbkdf2Oid
  · subst h1
    by_cases h2 : prfOid = hmacSha256Oid
    · subst h2
      rcases hk with hx | hx | hx
      · exact absurd rfl hx
      · exact absurd rfl hx
      · obtain ⟨hc1, hc2⟩ := hx
        simp [parsePbes2, encodePbes2ParamsRaw, decodeIntNat_encodeIntNat,
          hc1, hc2]
    · simp [parsePbes2, encodePbes2ParamsRaw, decodeIntNat_encodeIntNat, h2]
  · simp [parsePbes2, encodePbes2ParamsRaw, h1]
theorem decrypt_of_parse_error (impl : SymCipher → BlockCipher)
    (prf : List Nat → List Nat → List Nat)
    (e : EncryptedPrivateKeyInfo) (password : List Nat) (err : Error)
    (h : parsePbes2 e.encryptionAlgorithm = .error err) :
    EncryptedPrivateKeyInfo.decrypt impl prf e password = .error err := by
  unfold EncryptedPrivateKeyInfo.decrypt
  rw [h]
theorem privateKeyDocument_tryFrom_decodes (b : List Nat)
    (d : PrivateKeyDocument) (h : PrivateKeyDocument.tryFrom b = .ok d) :
    ∃ w, decodePrivateKeyInfo d.bytes = .ok w := by
  unfold PrivateKeyDocument.tryFrom at h
  cases hd : decodePrivateKeyInfo b with
  | ok w =>
    rw [hd] at h
    cases h
    exact ⟨w, hd⟩
  | error e =>
    rw [hd] at h
    cases h
theorem publicKeyDocument_tryFrom_decodes (b : List Nat)
    (d : PublicKeyDocument) (h : PublicKeyDocument.tryFrom b = .ok d) :
    ∃ w, decodeSubjectPublicKeyInfo d.bytes = .ok w := by
  unfold PublicKeyDocument.tryFrom at h
  cases hd : decodeSubjectPublicKeyInfo b with
  | ok w =>
    rw [hd] at h
    cases h
    exact ⟨w, hd⟩
  | error e =>
    rw [hd] at h
    cases h
theorem encryptedPrivateKeyDocument_tryFrom_decodes (b : List Nat)
    (d : EncryptedPrivateKeyDocument)
    (h : EncryptedPrivateKeyDocument.tryFrom b = .ok d) :
    ∃ w, decodeEncryptedPrivateKeyInfo d.bytes = .ok w := by
  unfold EncryptedPrivateKeyDocument.tryFrom at h
  cases hd : decodeEncryptedPrivateKeyInfo b with
  | ok w =>
    rw [hd] at h
    cases h
    exact ⟨w, hd⟩
  | error e =>
    rw [hd] at h
    cases h
/-- C1: for every structurally valid PrivateKeyInfo value, decoding its
encoding returns the value unchanged, and every canonical DER byte sequence
representing a valid PrivateKeyInfo decodes to a value whose re-encoding is
byte-for-byte the original sequence. -/
theorem privateKeyInfo_decode_encode_roundtrip (v : PrivateKeyInfo)
    (hv : v.Valid) (b : List Nat) (hb : CanonicalPrivateKeyInfoDer b) :
    decodePrivateKeyInfo (encodePrivateKeyInfo v) = .ok v ∧
    ∃ w, decodePrivateKeyInfo b = .ok w ∧ encodePrivateKeyInfo w = b := by
  refine ⟨decodePrivateKeyInfo_encode v hv, ?_⟩
  obtain ⟨w, hw, rfl⟩ := hb
  exact ⟨w, decodePrivateKeyInfo_encode w hw, rfl⟩
theorem privateKeyInfo_decode_encode_roundtrip_witness :
    decodePrivateKeyInfo (encodePrivateKeyInfo vEx) = .ok vEx ∧
    ∃ w, decodePrivateKeyInfo (encodePrivateKeyInfo vEx) = .ok w ∧
      encodePrivateKeyInfo w = encodePrivateKeyInfo vEx :=
  privateKeyInfo_decode_encode_roundtrip vEx (by decide)
    (encodePrivateKeyInfo vEx) ⟨vEx, by decide, rfl⟩
/-- C2: decrypting the encryption of a private key under the same password
and any supported, correct cipher implementation recovers the original
value, for every valid PrivateKeyInfo, password and PBES2 scheme
parameters with a block-sized initialisation vector. -/
theorem pbes2_decrypt_encrypt_inverse (impl : SymCipher → BlockCipher)
    (prf : List Nat → List Nat → List Nat)
    (v : PrivateKeyInfo) (p : Pbes2Params) (password : List Nat)
    (hv : v.Valid) (hc : CipherCorrect (impl p.cipher))
    (hiv : p.iv.length = 16) :
    EncryptedPrivateKeyInfo.decrypt impl prf
      (encryptPrivateKeyInfo impl prf v p password) password = .ok v :=
  decrypt_encryptPrivateKeyInfo impl prf v p password hv hc hiv
theorem pbes2_decrypt_encrypt_inverse_witness :
    EncryptedPrivateKeyInfo.decrypt idImpl constPrf
      (encryptPrivateKeyInfo idImpl constPrf vEx pEx pwEx) pwEx = .ok vEx :=
  pbes2_decrypt_encrypt_inverse idImpl constPrf vEx pEx pwEx (by decide)
    (fun key b hb => ⟨hb, rfl⟩) (by decide)
/-- C3: decoding a PrivateKeyInfo sequence carrying any version integer
other than zero fails with the unsupported-version error, for every
otherwise-valid algorithm identifier and key payload, and succeeds exactly
when the version is zero. -/
theorem privateKeyInfo_version_rejection (n : Nat) (v : PrivateKeyInfo)
    (hv : v.Valid) :
    decodePrivateKeyInfo (encodePrivateKeyInfoV n v) =
      if n = 0 then .ok v else .error .version :=
  decodePrivateKeyInfo_encodeV n v hv
theorem privateKeyInfo_version_rejection_witness :
    decodePrivateKeyInfo (encodePrivateKeyInfoV 1 vEx) =
      if 1 = 0 then Except.ok vEx else Except.error Error.version :=
  privateKeyInfo_version_rejection 1 vEx (by decide)
/-- C4: appending any non-empty byte sequence to a valid, complete DER
encoding of a PrivateKeyInfo makes decoding fail with the
malformed-encoding error: the decoder tolerates no trailing garbage. -/
theorem privateKeyInfo_decode_rejects_trailing (b extra : List Nat)
    (hb : CanonicalPrivateKeyInfoDer b) (hx : extra ≠ []) :
    decodePrivateKeyInfo (b ++ extra) = .error .malformed := by
  obtain ⟨w, hw, rfl⟩ := hb
  unfold encodePrivateKeyInfo encodePrivateKeyInfoV decodePrivateKeyInfo
  rw [expectTlvFull_tlv_append]
  simp [hx]
theorem privateKeyInfo_decode_rejects_trailing_witness :
    decodePrivateKeyInfo (encodePrivateKeyInfo vEx ++ [0]) =
      .error .malformed :=
  privateKeyInfo_decode_rejects_trailing (encodePrivateKeyInfo vEx) [0]
    ⟨vEx, by decide, rfl⟩ (by decide)
/-- C5: decoding an EncryptedPrivateKeyInfo checks only structural
well-formedness, so an encoding naming an unsupported scheme — or a PBES2
encoding naming an unsupported KDF, pseudorandom function or cipher —
still decodes successfully; decrypt then rejects every such identifier
outside the supported set with the unknown-algorithm error. -/
theorem encryptedPrivateKeyInfo_lazy_decode_unknown_rejected
    (impl : SymCipher → BlockCipher) (prf : List Nat → List Nat → List Nat)
    (kdfOid prfOid cOid salt iv data pw : List Nat) (iters : Nat)
    (alg2 : AlgorithmIdentifier) (data2 pw2 : List Nat)
    (hk : kdfOid ≠ pbkdf2Oid ∨ prfOid ≠ hmacSha256Oid ∨
      (cOid ≠ aes128CbcOid ∧ cOid ≠ aes256CbcOid))
    (h2 : alg2.oid ≠ [] ∧ alg2.parameters ≠ some []) :
    decodeEncryptedPrivateKeyInfo
        (encodeEncryptedPrivateKeyInfo ⟨alg2, data2⟩) = .ok ⟨alg2, data2⟩ ∧
    decodeEncryptedPrivateKeyInfo (encodeEncryptedPrivateKeyInfo
        ⟨⟨pbes2Oid, some (encodePbes2ParamsRaw kdfOid prfOid cOid salt iters iv)⟩,
          data⟩) =
      .ok ⟨⟨pbes2Oid, some (encodePbes2ParamsRaw kdfOid prfOid cOid salt iters iv)⟩,
        data⟩ ∧
    EncryptedPrivateKeyInfo.decrypt impl prf
        ⟨⟨pbes2Oid, some (encodePbes2ParamsRaw kdfOid prfOid cOid salt iters iv)⟩,
          data⟩ pw =
      .error .unknownAlgorithm ∧
    (alg2.oid ≠ pbes2Oid →
      EncryptedPrivateKeyInfo.decrypt impl prf ⟨alg2, data2⟩ pw2 =
        .error .unknownAlgorithm) := by
  refine ⟨decodeEncryptedPrivateKeyInfo_encode _ h2.1 h2.2, ?_, ?_, ?_⟩
  · apply decodeEncryptedPrivateKeyInfo_encode
    · show pbes2Oid ≠ []
      decide
    · show some (encodePbes2ParamsRaw kdfOid prfOid cOid salt iters iv) ≠ some []
      simp [encodePbes2ParamsRaw]
  · exact decrypt_of_parse_error impl prf _ pw .unknownAlgorithm
      (parsePbes2_raw_unknown kdfOid prfOid cOid salt iv iters hk)
  · intro ho
    exact decrypt_of_parse_error impl prf _ pw2 .unknownAlgorithm
      (parsePbes2_not_pbes2 alg2 ho)
theorem encryptedPrivateKeyInfo_lazy_decode_unknown_rejected_witness :
    decodeEncryptedPrivateKeyInfo
        (encodeEncryptedPrivateKeyInfo ⟨⟨[13], none⟩, [1]⟩) =
      .ok ⟨⟨[13], none⟩, [1]⟩ ∧
    decodeEncryptedPrivateKeyInfo (encodeEncryptedPrivateKeyInfo
        ⟨⟨pbes2Oid, some (encodePbes2ParamsRaw [1] hmacSha256Oid aes128CbcOid [2] 1 [3])⟩,
          [9]⟩) =
      .ok ⟨⟨pbes2Oid, some (encodePbes2ParamsRaw [1] hmacSha256Oid aes128CbcOid [2] 1 [3])⟩,
        [9]⟩ ∧
    EncryptedPrivateKeyInfo.decrypt idImpl constPrf
        ⟨⟨pbes2Oid, some (encodePbes2ParamsRaw [1] hmacSha256Oid aes128CbcOid [2] 1 [3])⟩,
          [9]⟩ pwEx =
      .error .unknownAlgorithm ∧
    (spki.AlgorithmIdentifier.oid ⟨[13], none⟩ ≠ pbes2Oid →
      EncryptedPrivateKeyInfo.decrypt idImpl constPrf ⟨⟨[13], none⟩, [1]⟩ pwEx =
        .error .unknownAlgorithm) :=
  encryptedPrivateKeyInfo_lazy_decode_unknown_rejected idImpl constPrf
    [1] hmacSha256Oid aes128CbcOid [2] [3] [9] pwEx 1 ⟨[13], none⟩ [1] pwEx
    (Or.inl (by decide)) (by decide)
/-- C6: whenever the scheme parameters of an encrypted container parse
successfully (the supported-algorithm case), every failure of decrypt — a
padding or other cryptographic failure of CBC decryption, or a DER-decode
failure of the decrypted plaintext as a PrivateKeyInfo, wrong passwords
manifesting as either — surfaces as the single undifferentiated crypto
error kind, and decrypt always returns a value rather than panicking. -/
theorem decrypt_failure_single_crypto_kind (impl : SymCipher → BlockCipher)
    (prf : List Nat → List Nat → List Nat)
    (e : EncryptedPrivateKeyInfo) (pw : List Nat) (p : Pbes2Params)
    (hp : parsePbes2 e.encryptionAlgorithm = .ok p) (err : Error)
    (he : EncryptedPrivateKeyInfo.decrypt impl prf e pw = .error err) :
    err = Error.crypto := by
  unfold EncryptedPrivateKeyInfo.decrypt at he
  simp only [hp] at he
  cases hd : cbcDecrypt (impl p.cipher)
      (pbkdf2 prf 32 pw p.salt p.iterationCount p.cipher.keyLen)
      p.iv e.encryptedData with
  | none =>
    simp only [hd] at he
    exact (Except.error.inj he).symm
  | some pt =>
    simp only [hd] at he
    cases hpt : decodePrivateKeyInfo pt with
    | error e2 =>
      simp only [hpt] at he
      exact (Except.error.inj he).symm
    | ok w =>
      simp only [hpt] at he
      exact Except.noConfusion he
theorem decrypt_failure_single_crypto_kind_witness :
    Error.crypto = Error.crypto :=
  decrypt_failure_single_crypto_kind idImpl constPrf
    ⟨pbes2AlgorithmIdentifier pEx, [1]⟩ pwEx pEx (by decide)
    Error.crypto (by decide)
/-- C7: every document wrapper maintains the invariant that its stored
buffer re-decodes successfully as the structure it claims to hold, both
when constructed from raw bytes (validated by decoding before a document is
exposed) and when constructed from a structured value (encoded, then
validated by re-decoding). -/
theorem documents_maintain_decode_invariant
    (bPriv bPub bEnc : List Nat) (v : PrivateKeyInfo)
    (s : SubjectPublicKeyInfo) (e : EncryptedPrivateKeyInfo) :
    (∀ d, PrivateKeyDocument.tryFrom bPriv = .ok d →
      ∃ w, decodePrivateKeyInfo d.bytes = .ok w) ∧
    (∀ d, PrivateKeyDocument.fromPrivateKeyInfo v = .ok d →
      ∃ w, decodePrivateKeyInfo d.bytes = .ok w) ∧
    (∀ d, PublicKeyDocument.tryFrom bPub = .ok d →
      ∃ w, decodeSubjectPublicKeyInfo d.bytes = .ok w) ∧
    (∀ d, PublicKeyDocument.fromSubjectPublicKeyInfo s = .ok d →
      ∃ w, decodeSubjectPublicKeyInfo d.bytes = .ok w) ∧
    (∀ d, EncryptedPrivateKeyDocument.tryFrom bEnc = .ok d →
      ∃ w, decodeEncryptedPrivateKeyInfo d.bytes = .ok w) ∧
    (∀ d, EncryptedPrivateKeyDocument.fromEncryptedPrivateKeyInfo e = .ok d →
      ∃ w, decodeEncryptedPrivateKeyInfo d.bytes = .ok w) :=
  ⟨fun d h => privateKeyDocument_tryFrom_decodes bPriv d h,
   fun d h => privateKeyDocument_tryFrom_decodes _ d h,
   fun d h => publicKeyDocument_tryFrom_decodes bPub d h,
   fun d h => publicKeyDocument_tryFrom_decodes _ d h,
   fun d h => encryptedPrivateKeyDocument_tryFrom_decodes bEnc d h,
   fun d h => encryptedPrivateKeyDocument_tryFrom_decodes _ d h⟩
theorem documents_maintain_decode_invariant_witness :
    (∃ w, decodePrivateKeyInfo
      (PrivateKeyDocument.mk (encodePrivateKeyInfo vEx)).bytes = .ok w) ∧
    (∃ w, decodeSubjectPublicKeyInfo
      (PublicKeyDocument.mk (encodeSubjectPublicKeyInfo sEx)).bytes = .ok w) ∧
    (∃ w, decodeEncryptedPrivateKeyInfo
      (EncryptedPrivateKeyDocument.mk (encodeEncryptedPrivateKeyInfo eEx)).bytes
        = .ok w) := by
  obtain ⟨h1, h2, h3, h4, h5, h6⟩ := documents_maintain_decode_invariant
    (encodePrivateKeyInfo vEx) (encodeSubjectPublicKeyInfo sEx)
    (encodeEncryptedPrivateKeyInfo eEx) vEx sEx eEx
  exact ⟨h2 _ (by decide), h4 _ (by decide), h6 _ (by decide)⟩
/-- C9: every core operation — decoding, encoding, decrypting, encrypting,
document construction and PBKDF2 key derivation — is a pure deterministic
function of its explicit inputs: two calls with identical inputs return
identical results, with no hidden global configuration in the model. -/
theorem core_operations_deterministic
    (impl : SymCipher → BlockCipher) (prf : List Nat → List Nat → List Nat)
    (b1 b2 pw1 pw2 salt1 salt2 : List Nat) (it1 it2 dk1 dk2 : Nat)
    (v1 v2 : PrivateKeyInfo) (e1 e2 : EncryptedPrivateKeyInfo)
    (p1 p2 : Pbes2Params)
    (hb : b1 = b2) (hpw : pw1 = pw2) (hs : salt1 = salt2) (hit : it1 = it2)
    (hdk : dk1 = dk2) (hv : v1 = v2) (he : e1 = e2) (hp : p1 = p2) :
    decodePrivateKeyInfo b1 = decodePrivateKeyInfo b2 ∧
    encodePrivateKeyInfo v1 = encodePrivateKeyInfo v2 ∧
    EncryptedPrivateKeyInfo.decrypt impl prf e1 pw1 =
      EncryptedPrivateKeyInfo.decrypt impl prf e2 pw2 ∧
    encryptPrivateKeyInfo impl prf v1 p1 pw1 =
      encryptPrivateKeyInfo impl prf v2 p2 pw2 ∧
    PrivateKeyDocument.tryFrom b1 = PrivateKeyDocument.tryFrom b2 ∧
    pbkdf2 prf 32 pw1 salt1 it1 dk1 = pbkdf2 prf 32 pw2 salt2 it2 dk2 := by
  subst hb hpw hs hit hdk hv he hp
  exact ⟨rfl, rfl, rfl, rfl, rfl, rfl⟩
theorem core_operations_deterministic_witness :
    decodePrivateKeyInfo [1] = decodePrivateKeyInfo [1] ∧
    encodePrivateKeyInfo vEx = encodePrivateKeyInfo vEx ∧
    EncryptedPrivateKeyInfo.decrypt idImpl constPrf eEx pwEx =
      EncryptedPrivateKeyInfo.decrypt idImpl constPrf eEx pwEx ∧
    encryptPrivateKeyInfo idImpl constPrf vEx pEx pwEx =
      encryptPrivateKeyInfo idImpl constPrf vEx pEx pwEx ∧
    PrivateKeyDocument.tryFrom [1] = PrivateKeyDocument.tryFrom [1] ∧
    pbkdf2 constPrf 32 pwEx [2] 1 16 = pbkdf2 constPrf 32 pwEx [2] 1 16 :=
  core_operations_deterministic idImpl constPrf [1] [1] pwEx pwEx [2] [2]
    1 1 16 16 vEx vEx eEx eEx pEx pEx rfl rfl rfl rfl rfl rfl rfl rfl
/-- C10: the AlgorithmIdentifier and SubjectPublicKeyInfo types at the
pkcs8 crate's public interface are the external spki crate's definitions
re-exported unmodified (lib.rs line 89), so the crate's handling of the
public-key container types is definitionally equal to spki's, with no
wrapping, conversion or re-validation. -/
theorem reexported_spki_types_unmodified :
    pkcs8.AlgorithmIdentifier = spki.AlgorithmIdentifier ∧
    pkcs8.SubjectPublicKeyInfo = spki.SubjectPublicKeyInfo :=
  ⟨rfl, rfl⟩
